import Mathlib

/-!
Verification of the sphinxserve coordination core
(`src/sphinxserve/__init__.py`) via a shallow embedding.

The embedding models:
* `SphinxServer.build` as the list of log entries it emits for a given
  `BuildResult` supplied by the environment (the external `sphinx-build`
  subprocess is an opaque collaborator);
* the first half of `SphinxServer.manage` (initial build, fatal-exit check,
  worker spawning) as a pure function;
* `Prog.check_dependencies` and `Prog.serve` as pure functions over a small
  filesystem state;
* the concurrent behaviour of the `serve` / `watch` / `render` greenlets as a
  labelled transition system `Step` whose interleavings are the gevent
  cooperative schedules (task switches only at suspension points).
-/

namespace Sphinxserve

/-- The configured extension list from the `conf` string:
`extensions: [rst, rst~, txt, txt~]`. -/
def extensions : List String := ["rst", "rst~", "txt", "txt~"]

/-- Python's `str.endswith`, on the character lists of the strings. -/
def strEndsWith (s e : String) : Bool := e.data.isSuffixOf s.data

/-- Python's whitespace set for `str.strip()` (ASCII part). -/
def isSpaceChar (c : Char) : Bool :=
  c == ' ' || c == '\t' || c == '\n' || c == '\r' || c == '\x0b' || c == '\x0c'

/-- Python's `str.strip()`: remove leading and trailing whitespace. -/
def pyStrip (s : String) : String :=
  ⟨((s.data.dropWhile isSpaceChar).reverse.dropWhile isSpaceChar).reverse⟩

/-- Modelled from the spec: the suffix filter of `fs_event_ctx`
(`sphinxserve.lib`, whose source is not included): "Only events whose path
suffix matches the configured set are surfaced; all others are filtered out
silently." -/
def qualifies (exts : List String) (path : String) : Bool :=
  exts.any (fun e => strEndsWith path e)

/-- Result of one invocation of the external `sphinx-build` command:
exit code and captured streams (`loadconfig.lib.run`). -/
structure BuildResult where
  code : Int
  stdout : String
  stderr : String
deriving DecidableEq, Repr

/-- Log severities used by `SphinxServer`. -/
inductive LogLevel where
  | debug
  | info
  | warning
deriving DecidableEq, Repr

/-- One emitted log line. -/
structure LogEntry where
  level : LogLevel
  msg : String
deriving DecidableEq, Repr

/-- The log lines emitted by one call of `SphinxServer.build` given the
subprocess result: `logger.info('Building...')`, then
`if result.stderr.strip(): logger.warning(result.stderr.strip())`, then
`logger.info('Build completed in %fs', ...)`.  The exit code is not
inspected inside `build`. -/
def buildLogs (result : BuildResult) : List LogEntry :=
  [⟨.info, "Building..."⟩]
    ++ (if pyStrip result.stderr ≠ "" then [⟨.warning, pyStrip result.stderr⟩] else [])
    ++ [⟨.info, "Build completed"⟩]

/-- The warning lines among a log. -/
def warningsOf (logs : List LogEntry) : List LogEntry :=
  logs.filter (fun e => e.level == LogLevel.warning)

/-- The three greenlets spawned by `SphinxServer.manage`. -/
inductive Task where
  | serve
  | watch
  | render
deriving DecidableEq, Repr

/-- Outcome of the first half of `SphinxServer.manage`: either
`sys.exit(result.stderr)` on a failing initial build, or the worker
greenlets are spawned. -/
inductive ManageOutcome where
  | exit (msg : String)
  | spawned (workers : List Task)
deriving DecidableEq, Repr

/-- `SphinxServer.manage` up to the spawn: one unconditional initial build;
`if result.code != 0: sys.exit(result.stderr)`; otherwise
`workers = [spawn(self.serve), spawn(self.watch), spawn(self.render)]`. -/
def manageStart (result : BuildResult) : ManageOutcome :=
  if result.code ≠ 0 then .exit result.stderr
  else .spawned [.serve, .watch, .render]

/-- The greenlets running after `manageStart`: none when the process exited. -/
def ManageOutcome.workers : ManageOutcome → List Task
  | .exit _ => []
  | .spawned ws => ws

/-- Filesystem state relevant to `Prog.check_dependencies`: whether
`sphinx_path` exists, and the contents of `sphinx_path/index.rst` and
`sphinx_path/conf.py` when they exist. -/
structure FSState where
  pathExists : Bool
  indexRst : Option String
  confPy : Option String
deriving DecidableEq, Repr

/-- The dedented default `index.rst` written by `check_dependencies`. -/
def defaultIndexRst : String :=
  "Index rst file\n==============\n\nThis is the main reStructuredText page. It is meant as a\ntemporary example, ready to override."

/-- The default `conf.py` written by `check_dependencies`. -/
def defaultConfPy : String := "master_doc = 'index'\n"

/-- `Prog.check_dependencies`: create `sphinx_path` if it does not exist,
write the default `index.rst` if absent, write the default `conf.py` if
absent; existing entries are left untouched. -/
def check_dependencies (fs : FSState) : FSState :=
  let fs1 := if !fs.pathExists then { fs with pathExists := true } else fs
  let fs2 :=
    if fs1.indexRst.isNone then { fs1 with indexRst := some defaultIndexRst } else fs1
  if fs2.confPy.isNone then { fs2 with confPy := some defaultConfPy } else fs2

/-- Outcome of `Prog.serve`: either an OS error escaped from
`check_dependencies` before `SphinxServer(...).manage()` was entered (so no
greenlet ever starts), or `manage` is entered with the scaffolded
filesystem. -/
inductive ServeOutcome where
  | fatal
  | started (fs : FSState)
deriving DecidableEq, Repr

/-- `check_dependencies` with failure: when the path is inaccessible
(`accessible = false`), any mutating filesystem call it needs
(`os.makedirs` / `write_file`) raises, and the exception propagates. -/
def check_dependenciesE (accessible : Bool) (fs : FSState) : Option FSState :=
  if (!fs.pathExists || fs.indexRst.isNone || fs.confPy.isNone) && !accessible then
    none
  else
    some (check_dependencies fs)

/-- `Prog.serve`: `self.check_dependencies()` then
`SphinxServer(self.c).manage()`. -/
def prog_serve (accessible : Bool) (fs : FSState) : ServeOutcome :=
  match check_dependenciesE accessible fs with
  | none => .fatal
  | some fs2 => .started fs2

/-! ## The coordination transition system

`serve`, `watch` and `render` run as gevent greenlets under a cooperative
single-threaded scheduler: task switches occur only at suspension points.
`manage` performs the unconditional initial build before any greenlet is
spawned.  The state records the two `gevent.event.Event` primitives
(`watch_ev`, `render_ev`), the stage `manage` has reached and the program
counter of the `render` loop.  `sphinx-build` results are supplied by the
environment as transition parameters. -/

/-- Stage of `SphinxServer.manage`. -/
inductive Phase where
  | beforeInit
  | initBuilding
  | exited
  | loop
deriving DecidableEq, Repr

/-- Program counter of the `render` greenlet: not yet spawned, suspended in
`watch_ev.wait()`, or inside `self.build()`. -/
inductive RenderPC where
  | notStarted
  | atWait
  | inBuild
deriving DecidableEq, Repr

/-- Shared state of the coordination engine. -/
structure SysState where
  phase : Phase
  watch_ev : Bool
  render_ev : Bool
  renderPC : RenderPC
deriving DecidableEq, Repr

/-- State at process start, before `manage` runs. -/
def initState : SysState := ⟨.beforeInit, false, false, .notStarted⟩

/-- Observable actions of a transition. -/
inductive Act where
  | buildStart
  | buildFinish
  | latchSet (path : String)
  | renderSet
  | renderClear
deriving DecidableEq, Repr

/-- Effect of one filesystem event on the state: the `watch` greenlet body
sets `watch_ev` for every event its iterator yields, and `fs_event_ctx`
yields exactly the qualifying ones. -/
def applyChange (s : SysState) (path : String) : SysState :=
  if qualifies extensions path then { s with watch_ev := true } else s

/-- Actions emitted for one filesystem event: non-qualifying events are
filtered out silently. -/
def changeActs (path : String) : List Act :=
  if qualifies extensions path then [.latchSet path] else []

/-- One scheduler step of the coordination engine. -/
inductive Step : SysState → List Act → SysState → Prop where
  /-- `manage` enters the unconditional initial `self.build()`; no greenlet
  has been spawned yet. -/
  | startInit (s : SysState) :
      s.phase = .beforeInit →
      Step s [.buildStart] { s with phase := .initBuilding }
  /-- The initial build returns with exit code 0: `manage` spawns the
  `serve`, `watch` and `render` greenlets; `render` suspends in
  `watch_ev.wait()`. -/
  | finishInitOk (s : SysState) (r : BuildResult) :
      s.phase = .initBuilding → r.code = 0 →
      Step s [.buildFinish] { s with phase := .loop, renderPC := .atWait }
  /-- The initial build returns with a nonzero exit code:
  `sys.exit(result.stderr)`; no greenlet is ever spawned. -/
  | finishInitFail (s : SysState) (r : BuildResult) :
      s.phase = .initBuilding → r.code ≠ 0 →
      Step s [.buildFinish] { s with phase := .exited }
  /-- A filesystem event is delivered to the `watch` greenlet. -/
  | fsChange (s : SysState) (path : String) :
      s.phase = .loop →
      Step s (changeActs path) (applyChange s path)
  /-- `watch_ev.wait()` returns because the latch is set; `render` clears
  the latch and enters `self.build()` (no suspension point between the
  wait returning, the clear, and the build starting). -/
  | wake (s : SysState) :
      s.phase = .loop → s.renderPC = .atWait → s.watch_ev = true →
      Step s [.buildStart] { s with watch_ev := false, renderPC := .inBuild }
  /-- A steady-state `self.build()` returns (any exit code `r.code`):
  `render` sets `render_ev` and loops back to `watch_ev.wait()`. -/
  | finishBuild (s : SysState) (r : BuildResult) :
      s.phase = .loop → s.renderPC = .inBuild →
      Step s [.buildFinish, .renderSet]
        { s with renderPC := .atWait, render_ev := true }
  /-- Modelled from the spec: the `Webserver` (`sphinxserve.lib`, source not
  included) waits on `render_ev` and clears it before pushing the reload
  notification. -/
  | serveWake (s : SysState) :
      s.phase = .loop → s.render_ev = true →
      Step s [.renderClear] { s with render_ev := false }

/-- Finite executions: `Trace s tr t` means the system can go from `s` to
`t` emitting the action sequence `tr`. -/
inductive Trace : SysState → List Act → SysState → Prop where
  | nil (s : SysState) : Trace s [] s
  | cons {s t u : SysState} {acts tr : List Act} :
      Step s acts t → Trace t tr u → Trace s (acts ++ tr) u

/-- Number of builds currently in flight: the initial build inside `manage`
plus a steady-state build inside the `render` greenlet. -/
def SysState.inFlight (s : SysState) : ℕ :=
  (if s.phase = .initBuilding then 1 else 0)
    + (if s.renderPC = .inBuild then 1 else 0)

/-- Structural invariant: the `render` greenlet exists only once `manage`
has spawned the workers. -/
def Inv (s : SysState) : Prop :=
  s.phase ≠ .loop → s.renderPC = .notStarted

theorem inv_initState : Inv initState := fun _ => rfl

theorem inFlight_le_one (s : SysState) (h : Inv s) : s.inFlight ≤ 1 := by
  unfold SysState.inFlight
  by_cases hph : s.phase = .loop
  · simp [hph]
    split <;> simp
  · have hr := h hph
    simp [hr]
    split <;> simp

theorem Step.inv {s : SysState} {acts : List Act} {t : SysState}
    (h : Step s acts t) (hs : Inv s) : Inv t := by
  cases h with
  | startInit h1 =>
      intro _
      exact hs (by simp [h1])
  | finishInitOk r h1 h2 =>
      intro hc
      simp at hc
  | finishInitFail r h1 h2 =>
      intro _
      exact hs (by simp [h1])
  | fsChange path h1 =>
      intro hc
      exfalso
      apply hc
      unfold applyChange
      split <;> simp [h1]
  | wake h1 h2 h3 =>
      intro hc
      exact absurd h1 (by simpa using hc)
  | finishBuild r h1 h2 =>
      intro hc
      exact absurd h1 (by simpa using hc)
  | serveWake h1 h2 =>
      intro hc
      exact absurd h1 (by simpa using hc)

theorem Step.count_eq {s : SysState} {acts : List Act} {t : SysState}
    (h : Step s acts t) (hs : Inv s) :
    t.inFlight + acts.count Act.buildFinish
      = s.inFlight + acts.count Act.buildStart := by
  cases h with
  | startInit h1 =>
      have hr := hs (by simp [h1])
      simp [SysState.inFlight, h1, hr]
  | finishInitOk r h1 h2 =>
      have hr := hs (by simp [h1])
      simp [SysState.inFlight, h1, hr]
  | finishInitFail r h1 h2 =>
      have hr := hs (by simp [h1])
      simp [SysState.inFlight, h1, hr]
  | fsChange path h1 =>
      unfold applyChange changeActs
      split <;> simp [SysState.inFlight]
  | wake h1 h2 h3 =>
      simp [SysState.inFlight, h1, h2]
  | finishBuild r h1 h2 =>
      simp [SysState.inFlight, h1, h2]
  | serveWake h1 h2 =>
      simp [SysState.inFlight]

theorem Trace.inv_count {s : SysState} {tr : List Act} {t : SysState}
    (h : Trace s tr t) (hs : Inv s) :
    Inv t ∧ t.inFlight + tr.count Act.buildFinish
      = s.inFlight + tr.count Act.buildStart := by
  induction h with
  | nil s => exact ⟨hs, by simp⟩
  | cons hstep htr ih =>
      have h1 := hstep.inv hs
      have h2 := hstep.count_eq hs
      obtain ⟨h3, h4⟩ := ih h1
      refine ⟨h3, ?_⟩
      simp only [List.count_append]
      omega

theorem Trace.single {s t : SysState} {acts : List Act} (h : Step s acts t) :
    Trace s acts t := by
  have h2 := Trace.cons h (Trace.nil t)
  simpa using h2

theorem Trace.append {s t u : SysState} {tr1 tr2 : List Act}
    (h1 : Trace s tr1 t) (h2 : Trace t tr2 u) : Trace s (tr1 ++ tr2) u := by
  induction h1 with
  | nil s => simpa using h2
  | cons hstep htr ih =>
      rw [List.append_assoc]
      exact Trace.cons hstep (ih h2)

theorem Step.loop_phase {s : SysState} {acts : List Act} {t : SysState}
    (h : Step s acts t) (hph : s.phase = Phase.loop) : t.phase = Phase.loop := by
  cases h with
  | startInit h1 => simp [h1] at hph
  | finishInitOk r h1 h2 => simp [h1] at hph
  | finishInitFail r h1 h2 => simp [h1] at hph
  | fsChange path h1 =>
      unfold applyChange
      split <;> simpa using hph
  | wake h1 h2 h3 => simpa using hph
  | finishBuild r h1 h2 => simpa using hph
  | serveWake h1 h2 => simpa using hph

theorem Step.no_latch_bound {s : SysState} {acts : List Act} {t : SysState}
    (h : Step s acts t) (hph : s.phase = Phase.loop)
    (hno : ∀ p, Act.latchSet p ∉ acts) :
    acts.count Act.buildStart + (if t.watch_ev then 1 else 0)
      ≤ (if s.watch_ev then 1 else 0) := by
  cases h with
  | startInit h1 => simp [h1] at hph
  | finishInitOk r h1 h2 => simp [h1] at hph
  | finishInitFail r h1 h2 => simp [h1] at hph
  | fsChange path h1 =>
      by_cases hq : qualifies extensions path = true
      · exact absurd (by simp [changeActs, hq] : Act.latchSet path ∈ changeActs path)
          (hno path)
      · simp only [changeActs, applyChange, hq]
        simp
  | wake h1 h2 h3 =>
      simp [h3]
  | finishBuild r h1 h2 =>
      simp
  | serveWake h1 h2 =>
      simp

theorem Trace.no_latch_count_bound {t : SysState} {tr : List Act} {u : SysState}
    (h : Trace t tr u) :
    t.phase = Phase.loop → (∀ p, Act.latchSet p ∉ tr) →
    tr.count Act.buildStart + (if u.watch_ev then 1 else 0)
      ≤ (if t.watch_ev then 1 else 0) := by
  induction h with
  | nil s =>
      intro _ _
      simp
  | cons hstep htr ih =>
      intro hph hno
      have hph1 := hstep.loop_phase hph
      have hnoacts : ∀ p, Act.latchSet p ∉ _ := fun p hp => hno p (by
        simp only [List.mem_append]
        exact Or.inl hp)
      have hnotr : ∀ p, Act.latchSet p ∉ _ := fun p hp => hno p (by
        simp only [List.mem_append]
        exact Or.inr hp)
      have hb := hstep.no_latch_bound hph hnoacts
      have hi := ih hph1 hnotr
      simp only [List.count_append]
      omega

/-! ## Claims -/

/-- **C1**: at most one build invocation is ever in flight: along every
execution from process start, the number of in-flight builds (the
unconditional initial build in `manage` plus a steady-state build inside the
`render` loop — the only two call sites of `build`) never exceeds one, and
at every instant the builds started exceed the builds finished by at most
one, so no two invocations of `build` overlap in time. -/
theorem at_most_one_build_in_flight (tr : List Act) (s : SysState)
    (h : Trace initState tr s) :
    s.inFlight ≤ 1 ∧
    s.inFlight + tr.count Act.buildFinish = tr.count Act.buildStart ∧
    tr.count Act.buildStart ≤ tr.count Act.buildFinish + 1 := by
  obtain ⟨h1, h2⟩ := h.inv_count inv_initState
  have h3 := inFlight_le_one s h1
  have h0 : initState.inFlight = 0 := rfl
  rw [h0] at h2
  exact ⟨h3, by omega, by omega⟩

/-- A concrete execution: initial build, spawn, one change, one rebuild. -/
def demoTrace : List Act :=
  [Act.buildStart, Act.buildFinish, Act.latchSet "notes.rst",
   Act.buildStart, Act.buildFinish, Act.renderSet]

theorem demoTrace_valid :
    Trace initState demoTrace ⟨Phase.loop, false, true, RenderPC.atWait⟩ := by
  have e : demoTrace
      = [Act.buildStart] ++ ([Act.buildFinish] ++ (changeActs "notes.rst"
        ++ ([Act.buildStart] ++ [Act.buildFinish, Act.renderSet]))) := by decide
  rw [e]
  apply Trace.cons (Step.startInit initState rfl)
  apply Trace.cons (Step.finishInitOk _ ⟨0, "", ""⟩ rfl rfl)
  apply Trace.cons (Step.fsChange _ "notes.rst" rfl)
  apply Trace.cons (Step.wake _ rfl rfl rfl)
  exact Trace.single (Step.finishBuild _ ⟨0, "", ""⟩ rfl rfl)

theorem at_most_one_build_in_flight_witness :
    (⟨Phase.loop, false, true, RenderPC.atWait⟩ : SysState).inFlight ≤ 1 ∧
    (⟨Phase.loop, false, true, RenderPC.atWait⟩ : SysState).inFlight
        + demoTrace.count Act.buildFinish = demoTrace.count Act.buildStart ∧
    demoTrace.count Act.buildStart ≤ demoTrace.count Act.buildFinish + 1 :=
  at_most_one_build_in_flight demoTrace
    ⟨Phase.loop, false, true, RenderPC.atWait⟩ demoTrace_valid

/-- Cumulative effect of a batch of filesystem events. -/
def applyChanges (s : SysState) (ps : List String) : SysState :=
  ps.foldl applyChange s

/-- Actions emitted by a batch of filesystem events. -/
def changesActs : List String → List Act
  | [] => []
  | p :: ps => changeActs p ++ changesActs ps

theorem applyChanges_eq (s : SysState) (ps : List String) :
    applyChanges s ps
      = { s with watch_ev := s.watch_ev
            || ps.any (fun p => qualifies extensions p) } := by
  induction ps generalizing s with
  | nil => simp [applyChanges]
  | cons p ps ih =>
      show applyChanges (applyChange s p) ps = _
      rw [ih]
      unfold applyChange
      split <;> rename_i hq <;> simp [hq]

theorem changes_trace (s : SysState) (ps : List String)
    (hph : s.phase = Phase.loop) :
    Trace s (changesActs ps) (applyChanges s ps) := by
  induction ps generalizing s with
  | nil => exact Trace.nil s
  | cons p ps ih =>
      apply Trace.cons (Step.fsChange s p hph)
      apply ih
      unfold applyChange
      split <;> simpa using hph

/-- **C2**: event coalescing.  From any state where a steady-state build is
in flight, deliver any nonempty batch of qualifying change events during the
span of that build (each sets `watch_ev`; `render` clears the latch on
waking, before invoking `build`).  Then (a) there is an execution in which
the in-flight build finishes and exactly one subsequent build runs — never
zero — and (b) every execution from the batched state containing no further
latch-set action starts at most one build — never more than one. -/
theorem render_coalesces (s : SysState) (ps : List String)
    (hph : s.phase = Phase.loop) (hpc : s.renderPC = RenderPC.inBuild)
    (hne : ps ≠ []) (hq : ∀ p ∈ ps, qualifies extensions p = true) :
    (Trace s (changesActs ps
        ++ [Act.buildFinish, Act.renderSet, Act.buildStart,
            Act.buildFinish, Act.renderSet])
      { s with watch_ev := false, render_ev := true, renderPC := RenderPC.atWait } ∧
     [Act.buildFinish, Act.renderSet, Act.buildStart,
        Act.buildFinish, Act.renderSet].count Act.buildStart = 1) ∧
    (∀ tr u, Trace (applyChanges s ps) tr u → (∀ p, Act.latchSet p ∉ tr) →
      tr.count Act.buildStart ≤ 1) := by
  have hany : ps.any (fun p => qualifies extensions p) = true := by
    cases ps with
    | nil => simp at hne
    | cons p ps =>
        have := hq p (by simp)
        simp [this]
  have heq : applyChanges s ps = { s with watch_ev := true } := by
    rw [applyChanges_eq, hany]
    simp
  refine ⟨⟨?_, by decide⟩, ?_⟩
  · have h1 := changes_trace s ps hph
    rw [heq] at h1
    refine Trace.append h1 ?_
    apply Trace.cons (Step.finishBuild _ ⟨0, "", ""⟩ (by simpa using hph)
      (by simpa using hpc))
    apply Trace.cons (Step.wake _ (by simpa using hph) rfl rfl)
    exact Trace.single (Step.finishBuild _ ⟨0, "", ""⟩ (by simpa using hph) rfl)
  · intro tr u htr hno
    rw [heq] at htr
    have hb := htr.no_latch_count_bound (by simpa using hph) hno
    simp only [SysState.watch_ev] at hb
    by_cases hu : u.watch_ev = true <;> simp [hu] at hb <;> omega

/-- **C8**: suffix filter correctness with the configured set
`{rst, rst~, txt, txt~}`.  A change event for `"notes.md"` is filtered out:
it never sets `watch_ev`, emits no latch-set action, and from a quiescent
loop state every continuation without qualifying events runs zero builds.
A change event for `"notes.rst"` sets `watch_ev`, and triggers exactly one
build: an execution running exactly one build exists, and every
continuation without further qualifying events runs at most one. -/
theorem suffix_filter_correct (s : SysState)
    (hph : s.phase = Phase.loop) (hpc : s.renderPC = RenderPC.atWait)
    (hw : s.watch_ev = false) :
    qualifies extensions "notes.md" = false ∧
    applyChange s "notes.md" = s ∧
    changeActs "notes.md" = [] ∧
    (∀ tr u, Trace (applyChange s "notes.md") tr u →
      (∀ p, Act.latchSet p ∉ tr) → tr.count Act.buildStart = 0) ∧
    qualifies extensions "notes.rst" = true ∧
    Trace s (changeActs "notes.rst"
        ++ [Act.buildStart, Act.buildFinish, Act.renderSet])
      { s with watch_ev := false, render_ev := true, renderPC := RenderPC.atWait } ∧
    (∀ tr u, Trace (applyChange s "notes.rst") tr u →
      (∀ p, Act.latchSet p ∉ tr) → tr.count Act.buildStart ≤ 1) := by
  have hmd : qualifies extensions "notes.md" = false := by decide
  have hrst : qualifies extensions "notes.rst" = true := by decide
  have hamd : applyChange s "notes.md" = s := by
    simp [applyChange, hmd]
  have harst : applyChange s "notes.rst" = { s with watch_ev := true } := by
    simp [applyChange, hrst]
  refine ⟨hmd, hamd, by simp [changeActs, hmd], ?_, hrst, ?_, ?_⟩
  · intro tr u htr hno
    rw [hamd] at htr
    have hb := htr.no_latch_count_bound hph hno
    rw [hw] at hb
    by_cases hu : u.watch_ev = true
    · simp [hu] at hb
    · simp [hu] at hb
      omega
  · apply Trace.cons (Step.fsChange s "notes.rst" hph)
    rw [harst]
    apply Trace.cons (Step.wake _ (by simpa using hph) (by simpa using hpc) rfl)
    exact Trace.single (Step.finishBuild _ ⟨0, "", ""⟩ (by simpa using hph) rfl)
  · intro tr u htr hno
    rw [harst] at htr
    have hb := htr.no_latch_count_bound (by simpa using hph) hno
    simp only [SysState.watch_ev] at hb
    by_cases hu : u.watch_ev = true <;> simp [hu] at hb <;> omega

theorem suffix_filter_correct_witness :
    qualifies extensions "notes.md" = false ∧
    applyChange ⟨Phase.loop, false, false, RenderPC.atWait⟩ "notes.md"
      = ⟨Phase.loop, false, false, RenderPC.atWait⟩ ∧
    changeActs "notes.md" = [] ∧
    (∀ tr u, Trace (applyChange ⟨Phase.loop, false, false, RenderPC.atWait⟩
          "notes.md") tr u →
      (∀ p, Act.latchSet p ∉ tr) → tr.count Act.buildStart = 0) ∧
    qualifies extensions "notes.rst" = true ∧
    Trace ⟨Phase.loop, false, false, RenderPC.atWait⟩
      (changeActs "notes.rst" ++ [Act.buildStart, Act.buildFinish, Act.renderSet])
      ⟨Phase.loop, false, true, RenderPC.atWait⟩ ∧
    (∀ tr u, Trace (applyChange ⟨Phase.loop, false, false, RenderPC.atWait⟩
          "notes.rst") tr u →
      (∀ p, Act.latchSet p ∉ tr) → tr.count Act.buildStart ≤ 1) :=
  suffix_filter_correct ⟨Phase.loop, false, false, RenderPC.atWait⟩ rfl rfl rfl

/-- **C5**: the render loop sets `render_ev` exactly once after every
steady-state build, success or failure, before suspending again on
`watch_ev`: a scheduler step emits `renderSet` precisely when it is the
completion of a steady-state build (taking the render loop from `inBuild`
back to `atWait`), and such a step emits `renderSet` exactly once and
leaves `render_ev` set. -/
theorem render_ev_set_after_build (s : SysState) (acts : List Act)
    (t : SysState) (h : Step s acts t) :
    (Act.renderSet ∈ acts ↔
      s.phase = Phase.loop ∧ s.renderPC = RenderPC.inBuild
        ∧ t.renderPC = RenderPC.atWait) ∧
    (Act.renderSet ∈ acts →
      acts.count Act.renderSet = 1 ∧ t.render_ev = true) := by
  cases h with
  | startInit h1 =>
      refine ⟨⟨fun hm => by simp at hm, ?_⟩, fun hm => by simp at hm⟩
      rintro ⟨h2, -, -⟩
      rw [h1] at h2
      simp at h2
  | finishInitOk r h1 h2 =>
      refine ⟨⟨fun hm => by simp at hm, ?_⟩, fun hm => by simp at hm⟩
      rintro ⟨h3, -, -⟩
      rw [h1] at h3
      simp at h3
  | finishInitFail r h1 h2 =>
      refine ⟨⟨fun hm => by simp at hm, ?_⟩, fun hm => by simp at hm⟩
      rintro ⟨h3, -, -⟩
      rw [h1] at h3
      simp at h3
  | fsChange path h1 =>
      have hpc : (applyChange s path).renderPC = s.renderPC := by
        unfold applyChange
        split <;> rfl
      have hm : Act.renderSet ∉ changeActs path := by
        unfold changeActs
        split <;> simp
      refine ⟨⟨fun hmem => absurd hmem hm, ?_⟩, fun hmem => absurd hmem hm⟩
      rintro ⟨-, h2, h3⟩
      rw [hpc, h2] at h3
      simp at h3
  | wake h1 h2 h3 =>
      refine ⟨⟨fun hm => by simp at hm, ?_⟩, fun hm => by simp at hm⟩
      rintro ⟨-, h4, -⟩
      rw [h2] at h4
      simp at h4
  | finishBuild r h1 h2 =>
      refine ⟨⟨fun _ => ⟨h1, h2, rfl⟩, fun _ => by simp⟩, fun _ => ⟨by decide, rfl⟩⟩
  | serveWake h1 h2 =>
      refine ⟨⟨fun hm => by simp at hm, ?_⟩, fun hm => by simp at hm⟩
      rintro ⟨-, h3, h4⟩
      have hpc : ({ s with render_ev := false } : SysState).renderPC = s.renderPC := rfl
      rw [hpc, h3] at h4
      simp at h4

theorem render_ev_set_after_build_witness :
    (Act.renderSet ∈ [Act.buildFinish, Act.renderSet] ↔
      (⟨Phase.loop, true, false, RenderPC.inBuild⟩ : SysState).phase = Phase.loop ∧
      (⟨Phase.loop, true, false, RenderPC.inBuild⟩ : SysState).renderPC
          = RenderPC.inBuild ∧
      (⟨Phase.loop, true, true, RenderPC.atWait⟩ : SysState).renderPC
          = RenderPC.atWait) ∧
    (Act.renderSet ∈ [Act.buildFinish, Act.renderSet] →
      [Act.buildFinish, Act.renderSet].count Act.renderSet = 1 ∧
      (⟨Phase.loop, true, true, RenderPC.atWait⟩ : SysState).render_ev = true) :=
  render_ev_set_after_build ⟨Phase.loop, true, false, RenderPC.inBuild⟩
    [Act.buildFinish, Act.renderSet] ⟨Phase.loop, true, true, RenderPC.atWait⟩
    (Step.finishBuild _ ⟨1, "", "warning text"⟩ rfl rfl)

theorem render_coalesces_witness :
    (Trace ⟨Phase.loop, false, false, RenderPC.inBuild⟩
        (changesActs ["notes.rst"]
          ++ [Act.buildFinish, Act.renderSet, Act.buildStart,
              Act.buildFinish, Act.renderSet])
        ⟨Phase.loop, false, true, RenderPC.atWait⟩ ∧
      [Act.buildFinish, Act.renderSet, Act.buildStart,
        Act.buildFinish, Act.renderSet].count Act.buildStart = 1) ∧
    (∀ tr u, Trace (applyChanges ⟨Phase.loop, false, false, RenderPC.inBuild⟩
          ["notes.rst"]) tr u →
      (∀ p, Act.latchSet p ∉ tr) → tr.count Act.buildStart ≤ 1) :=
  render_coalesces ⟨Phase.loop, false, false, RenderPC.inBuild⟩ ["notes.rst"]
    rfl rfl (by decide) (by decide)

/-- **C3**: if the single unconditional initial build (the one `manage`
performs before spawning any worker greenlet) returns a nonzero exit code,
`manage` calls `sys.exit(result.stderr)` — the process terminates with the
captured stderr as the diagnostic — no worker greenlet is spawned (so the
web server never starts and no push connection is ever accepted), and no
transition is possible from the exited state. -/
theorem initial_build_failure_fatal (r : BuildResult) (h : r.code ≠ 0) :
    manageStart r = ManageOutcome.exit r.stderr ∧
    (manageStart r).workers = [] ∧
    ∀ (s : SysState) (acts : List Act) (t : SysState),
      s.phase = Phase.exited → ¬ Step s acts t := by
  refine ⟨by simp [manageStart, h],
    by simp [manageStart, h, ManageOutcome.workers], ?_⟩
  intro s acts t hph hstep
  cases hstep <;> simp_all

theorem initial_build_failure_fatal_witness :
    manageStart ⟨1, "", "conf.py missing"⟩ = ManageOutcome.exit "conf.py missing" ∧
    (manageStart ⟨1, "", "conf.py missing"⟩).workers = [] ∧
    ∀ (s : SysState) (acts : List Act) (t : SysState),
      s.phase = Phase.exited → ¬ Step s acts t :=
  initial_build_failure_fatal ⟨1, "", "conf.py missing"⟩ (by decide)

/-- **C9**: `build` logs a warning carrying the stripped stderr exactly when
the stripped stderr is non-empty — the exit code is never consulted — and
logs no warning at all when the stripped stderr is empty. -/
theorem build_stderr_warning (r : BuildResult) :
    (LogEntry.mk LogLevel.warning (pyStrip r.stderr) ∈ buildLogs r
        ↔ pyStrip r.stderr ≠ "") ∧
    (pyStrip r.stderr = "" → warningsOf (buildLogs r) = []) := by
  constructor
  · constructor
    · intro hmem hempty
      simp [buildLogs, hempty] at hmem
    · intro hne
      simp [buildLogs, hne]
  · intro hempty
    simp [buildLogs, hempty, warningsOf]

theorem build_stderr_warning_witness :
    (LogEntry.mk LogLevel.warning (pyStrip "boom") ∈ buildLogs ⟨0, "", "boom"⟩) ∧
    warningsOf (buildLogs ⟨2, "", "  "⟩) = [] :=
  ⟨(build_stderr_warning ⟨0, "", "boom"⟩).1.mpr (by decide),
   (build_stderr_warning ⟨2, "", "  "⟩).2 (by decide)⟩

/-- **C4** counterexample: a steady-state build failing with exit code 1 and
empty stderr logs no warning at all — `build` and `render` never inspect the
exit code, contrary to the claim that a nonzero exit code is logged as a
warning. -/
theorem steady_failure_no_warning_counterexample :
    (BuildResult.mk 1 "" "").code ≠ 0 ∧
    warningsOf (buildLogs (BuildResult.mk 1 "" "")) = [] := by
  constructor
  · decide
  · decide

/-- **C4** (amended): a nonzero exit code on a steady-state build never
stops the render loop — the loop takes the very same transition as on
success, setting `render_ev` and suspending again on `watch_ev` with the
previous output still served — and a warning is logged iff the build's
stripped stderr is non-empty, independently of the exit code. -/
theorem steady_build_failure_nonfatal (s : SysState) (r : BuildResult)
    (hph : s.phase = Phase.loop) (hpc : s.renderPC = RenderPC.inBuild) :
    Step s [Act.buildFinish, Act.renderSet]
      { s with renderPC := RenderPC.atWait, render_ev := true } ∧
    (warningsOf (buildLogs r) ≠ [] ↔ pyStrip r.stderr ≠ "") := by
  refine ⟨Step.finishBuild s r hph hpc, ?_⟩
  constructor
  · intro h hc
    apply h
    simp [buildLogs, warningsOf, hc]
  · intro h
    simp [buildLogs, warningsOf, h]

theorem steady_build_failure_nonfatal_witness :
    Step ⟨Phase.loop, false, false, RenderPC.inBuild⟩
      [Act.buildFinish, Act.renderSet] ⟨Phase.loop, false, true, RenderPC.atWait⟩ ∧
    (warningsOf (buildLogs ⟨1, "", "boom"⟩) ≠ [] ↔ pyStrip "boom" ≠ "") :=
  steady_build_failure_nonfatal ⟨Phase.loop, false, false, RenderPC.inBuild⟩
    ⟨1, "", "boom"⟩ rfl rfl

/-- **C7** counterexample: with a nonexistent (but creatable) source root,
`Prog.serve` does not fail at startup — `check_dependencies` creates the
directory and scaffold files and `manage` is entered — contradicting the
claim that a nonexistent root is fatal before any task starts. -/
theorem startup_nonexistent_not_fatal_counterexample :
    prog_serve true ⟨false, none, none⟩ ≠ ServeOutcome.fatal ∧
    prog_serve true ⟨false, none, none⟩ =
      ServeOutcome.started ⟨true, some defaultIndexRst, some defaultConfPy⟩ := by
  constructor
  · decide
  · decide

/-- **C7** (amended): a nonexistent source root is not fatal — `serve`
creates it (with scaffold files) via `check_dependencies` and proceeds to
`manage`; only when the filesystem operations needed for scaffolding fail
(inaccessible path) does `serve` fail before `manage` — and hence before
any watch, build or serve task — starts. -/
theorem startup_inaccessible_fatal (fs : FSState) (h : fs.pathExists = false) :
    prog_serve false fs = ServeOutcome.fatal ∧
    prog_serve true fs = ServeOutcome.started (check_dependencies fs) := by
  constructor
  · simp [prog_serve, check_dependenciesE, h]
  · simp [prog_serve, check_dependenciesE]

theorem startup_inaccessible_fatal_witness :
    prog_serve false ⟨false, none, none⟩ = ServeOutcome.fatal ∧
    prog_serve true ⟨false, none, none⟩ =
      ServeOutcome.started (check_dependencies ⟨false, none, none⟩) :=
  startup_inaccessible_fatal ⟨false, none, none⟩ rfl

/-- **C10**: before the server starts, `serve` runs `check_dependencies`,
which creates the configured `sphinx_path` when missing, writes the default
`index.rst` when missing, writes a `conf.py` containing
`master_doc = 'index'` when missing, and leaves whichever of the three
already exists unchanged. -/
theorem serve_scaffolding (fs : FSState) :
    check_dependencies fs =
      ⟨true, some (fs.indexRst.getD defaultIndexRst),
        some (fs.confPy.getD defaultConfPy)⟩ ∧
    (fs.indexRst.isSome → (check_dependencies fs).indexRst = fs.indexRst) ∧
    (fs.confPy.isSome → (check_dependencies fs).confPy = fs.confPy) ∧
    prog_serve true fs = ServeOutcome.started (check_dependencies fs) := by
  obtain ⟨pe, ir, cp⟩ := fs
  cases pe <;> cases ir <;> cases cp <;>
    simp [check_dependencies, prog_serve, check_dependenciesE]

theorem serve_scaffolding_witness :
    check_dependencies ⟨true, some "A", some "B"⟩ =
      ⟨true, some ((some "A").getD defaultIndexRst),
        some ((some "B").getD defaultConfPy)⟩ ∧
    ((some "A" : Option String).isSome →
      (check_dependencies ⟨true, some "A", some "B"⟩).indexRst = some "A") ∧
    ((some "B" : Option String).isSome →
      (check_dependencies ⟨true, some "A", some "B"⟩).confPy = some "B") ∧
    prog_serve true ⟨true, some "A", some "B"⟩ =
      ServeOutcome.started (check_dependencies ⟨true, some "A", some "B"⟩) :=
  serve_scaffolding ⟨true, some "A", some "B"⟩

end Sphinxserve
